import Mathlib

/-
  Verification development for the efes-ng pipeline engine
  (incremental build engine with content-addressed cache).

  Shallow embedding of the core source files:
    - CacheManager (cache.ts portion of src/projects/ircyr-xslt/ircyr-xslt.pipeline.ts,
      lines 361-775): cache entries, four-tier validation, item keys,
      output-set signatures, pruning, entry construction.
    - PipelineNode / Pipeline (pipeline.ts portion, lines 775-1231):
      content signatures, the withCache wrapper, input resolution,
      dependency-graph construction and sequential execution.

  Modelling conventions:
    - The filesystem is a finite association list from path to
      (content, mtimeMs).  `fs.stat` is lookup, `fs.access` is presence.
    - SHA-256 (node:crypto), absolute-path resolution (path.resolve) and
      JSON.stringify are external Node builtins; they are passed in as
      function parameters, never inspected.
    - JavaScript string sorting (Array.prototype.sort with the default
      comparator on ASCII path strings) is modelled by a stable insertion
      sort over Lean's lexicographic String order.
    - Fallible operations return Except; callers that mutate state return
      the mutated state alongside the Except so that effects performed
      before an exception persist, as on a real filesystem.
-/

namespace EfesNG

/-! ## JavaScript string helpers -/

/-- One step of JS `Array.prototype.sort` modelling: stable insertion of a
string into a sorted list using lexicographic order. -/
def insertStr (x : String) : List String → List String
  | [] => [x]
  | y :: ys => if x ≤ y then x :: y :: ys else y :: insertStr x ys

/-- JS `[...paths].sort()` on ASCII path strings. -/
def sortStrings : List String → List String
  | [] => []
  | x :: xs => insertStr x (sortStrings xs)

/-- JS `path.basename`: strip trailing slashes, then keep the part after the
last slash. -/
def basenameAux : List Char → List Char
  | [] => []
  | c :: cs => if c = '/' then basenameAux cs else c :: cs

def basename (p : String) : String :=
  -- drop trailing '/' characters, then take the suffix after the last '/'
  let chars := (basenameAux p.data.reverse).reverse
  let rev := chars.reverse
  ⟨(rev.takeWhile (fun c => c ≠ '/')).reverse⟩

def isAlphaNumCh (c : Char) : Bool :=
  (('a' ≤ c && c ≤ 'z') || ('A' ≤ c && c ≤ 'Z') || ('0' ≤ c && c ≤ '9'))

/-- Collapse runs of '-' into a single '-' (the dash-run replace regex). -/
def collapseDashes : List Char → List Char
  | [] => []
  | [c] => [c]
  | c :: d :: rest =>
    if c = '-' && d = '-' then collapseDashes (d :: rest)
    else c :: collapseDashes (d :: rest)

/-- JS `.replace(/^-|-$/g, '')`: removes one leading and one trailing dash
(only one each; inputs here never contain dash runs because they are
collapsed first). -/
def stripEdgeDashes (l : List Char) : List Char :=
  let l1 := match l with
    | '-' :: rest => rest
    | other => other
  match l1.reverse with
  | '-' :: rest => rest.reverse
  | _ => l1

/-! ## CacheManager: key sanitisation (cache.ts lines 752-774) -/

/-- CacheManager.sanitizeKey: replace path separators with '-', dots with
'_', drop all other characters outside [a-zA-Z0-9-_], lowercase, and
truncate to 200 characters. -/
def sanitizeKey (key : String) : String :=
  let repl := key.data.map (fun c =>
    if c = '/' || c = '\\' then '-' else if c = '.' then '_' else c)
  let kept := repl.filter (fun c => isAlphaNumCh c || c = '-' || c = '_')
  ⟨(kept.map Char.toLower).take 200⟩

/-- CacheManager.sanitizeNodeName: replace every character outside
[a-zA-Z0-9-_] with '-', collapse dash runs, lowercase. -/
def sanitizeNodeName (nodeName : String) : String :=
  let repl := nodeName.data.map (fun c =>
    if isAlphaNumCh c || c = '-' || c = '_' then c else '-')
  ⟨(collapseDashes repl).map Char.toLower⟩

/-! ## CacheManager: item keys and output-set signatures -/

/-- CacheManager.makeItemKey (cache.ts lines 652-668).  JS sorts `paths` in
place before both the hash and the human-readable prefix are computed, so
the prefix comes from the basename of the smallest path.  `sha256hex` is
the external SHA-256 hex digest. -/
def makeItemKey (sha256hex : String → String) (paths : List String) : String :=
  let sorted := sortStrings paths
  let combined := String.intercalate "|" sorted
  let hash := sha256hex combined
  let base := basename (sorted.headD "")
  let repl := base.data.map (fun c => if isAlphaNumCh c then c else '-')
  let keyHead : String := ⟨((stripEdgeDashes (collapseDashes repl)).map Char.toLower).take 50⟩
  keyHead ++ "-" ++ ⟨hash.data.take 8⟩

/-- CacheManager.computeOutputSignature (cache.ts lines 567-571): first 16
hex chars of SHA-256 over `sorted(paths).join("|")`. -/
def computeOutputSignature (sha256hex : String → String) (filePaths : List String) : String :=
  let sorted := sortStrings filePaths
  let combined := String.intercalate "|" sorted
  ⟨(sha256hex combined).data.take 16⟩

/-! ### Sorting lemmas -/

lemma insertStr_pair (a b : String) (hab : a ≤ b) :
    insertStr a [b] = [a, b] := by
  simp [insertStr, hab]

lemma insertStr_pair_of_not_le (a b : String) (hab : ¬ a ≤ b) :
    insertStr a [b] = [b, a] := by
  simp [insertStr, hab]

lemma sortStrings_pair_comm (a b : String) :
    sortStrings [a, b] = sortStrings [b, a] := by
  by_cases hab : a ≤ b
  · by_cases hba : b ≤ a
    · have : a = b := le_antisymm hab hba
      subst this
      rfl
    · simp [sortStrings, insertStr, hab, hba]
  · have hba : b ≤ a := le_of_not_le hab
    simp [sortStrings, insertStr, hab, hba]

/-- Claim C9 (item-key stability): makeItemKey depends only on the sorted
multiset of paths; swapping the two inputs changes nothing, including the
human-readable prefix (which is taken from the sorted array's head). -/
theorem makeItemKey_swap (sha256hex : String → String) (a b : String) :
    makeItemKey sha256hex [a, b] = makeItemKey sha256hex [b, a] := by
  unfold makeItemKey
  rw [sortStrings_pair_comm]

/-! ## Input resolution (pipeline.ts lines 781-803 and 1089-1149)

`Input` is the sum type glob-string | array | node-output reference; a
node-output reference carries the upstream node name, the output key and
an optional filter glob. -/

inductive Input where
  | globPat (s : String)
  | arr (xs : List Input)
  | nodeRef (nodeName : String) (outputKey : String) (filterGlob : Option String)

/-- A per-item keyed output mapping (NodeOutput): output key to paths. -/
abbrev NodeOut := List (String × List String)

/-- The runtime data `resolveInput` consults: the per-node output lists,
the external `glob` function (node glob package) and the build dir. -/
structure RCtx where
  nodeOutputs : List (String × List NodeOut)
  globFn : String → List String
  buildDir : String

/-- The glob pattern used when filtering one upstream output path
(pipeline.ts lines 1105-1116): outputs inside the build directory are
matched against an extended pattern with a wildcard node segment. -/
def filterPattern (ctx : RCtx) (pat : String) (outputPath : String) : String :=
  if outputPath.startsWith ctx.buildDir then
    ctx.buildDir ++ "/*/" ++ pat
  else pat

/-- One path survives the glob filter when the expanded pattern's matches
include it (`matches.includes(outputPath)`). -/
def passesFilter (ctx : RCtx) (pat : String) (outputPath : String) : Bool :=
  (ctx.globFn (filterPattern ctx pat outputPath)).contains outputPath

mutual

/-- PipelineContext.resolveInput (pipeline.ts lines 1089-1149).
Node-output references flatten the upstream output list under the key,
dropping undefined entries (modelled by `getD []`), and error when the
result is empty; a filter glob that empties the set also errors.  A glob
string errors on zero matches.  Arrays resolve recursively and
concatenate. -/
def resolveInput (ctx : RCtx) : Input → Except String (List String)
  | .nodeRef nodeName outputKey filterGlob =>
    match ctx.nodeOutputs.lookup nodeName with
    | none => .error ("Node " ++ nodeName ++ " has not run yet or has not produced any outputs.")
    | some outs =>
      let outputs := outs.flatMap (fun out => (out.lookup outputKey).getD [])
      if outputs.isEmpty then
        .error ("Node " ++ nodeName ++ " has not run yet or has not produced any outputs.")
      else
        match filterGlob with
        | none => .ok outputs
        | some pat =>
          let filtered := outputs.filter (passesFilter ctx pat)
          if filtered.isEmpty then
            .error ("No files from node " ++ nodeName ++ " output " ++ outputKey ++ " match pattern: " ++ pat)
          else .ok filtered
  | .globPat s =>
    let results := ctx.globFn s
    if results.isEmpty then .error ("No files found for pattern: " ++ s)
    else .ok results
  | .arr xs => resolveMany ctx xs

/-- Resolution of an array input: recursive resolution of each element,
results concatenated in order. -/
def resolveMany (ctx : RCtx) : List Input → Except String (List String)
  | [] => .ok []
  | x :: xs => do
    let r ← resolveInput ctx x
    let rs ← resolveMany ctx xs
    .ok (r ++ rs)

end

/-- A demonstration context for concrete evaluations: one glob pattern g
matching a single path p. -/
def demoRCtx : RCtx :=
  { nodeOutputs := [("A", [[("out", ["p"])]])]
    globFn := fun s => if s = "g" then ["p"] else []
    buildDir := ".efes-build" }

/-- Claim C7 counterexample: resolve_input can return an empty list
without raising an error (the empty-array input), and it can return
duplicates (an array repeating the same glob), so the claim that every
resolution either errors or yields a non-empty duplicate-free list is
false as stated. -/
theorem resolveInput_empty_counterexample :
    resolveInput demoRCtx (.arr []) = .ok [] ∧
    resolveInput demoRCtx (.arr [.globPat "g", .globPat "g"]) = .ok ["p", "p"] := by
  constructor
  · rfl
  · rfl

/-- Claim C7 as amended: a glob-string input and a node-output-reference
input either raise an error or return a non-empty list; an array input
returns the concatenation of its elements' resolutions in order (and may
therefore be empty or contain duplicates). -/
theorem resolveInput_nonempty_or_error (ctx : RCtx) :
    (∀ s r, resolveInput ctx (.globPat s) = .ok r → r ≠ []) ∧
    (∀ n k g r, resolveInput ctx (.nodeRef n k g) = .ok r → r ≠ []) ∧
    (∀ x xs r, resolveInput ctx (.arr (x :: xs)) = .ok r →
      ∃ r1 r2, resolveInput ctx x = .ok r1 ∧ resolveInput ctx (.arr xs) = .ok r2 ∧ r = r1 ++ r2) := by
  refine ⟨?_, ?_, ?_⟩
  · intro s r h
    simp only [resolveInput] at h
    by_cases he : (ctx.globFn s).isEmpty
    · simp [he] at h
    · simp only [he, if_false] at h
      cases h
      intro hnil
      rw [hnil] at he
      simp at he
  · intro n k g r h
    simp only [resolveInput] at h
    cases hlk : ctx.nodeOutputs.lookup n with
    | none => rw [hlk] at h; cases h
    | some outs =>
      rw [hlk] at h
      by_cases he : (outs.flatMap (fun out => (out.lookup k).getD [])).isEmpty
      · simp [he] at h
      · simp only [he, if_false] at h
        cases g with
        | none =>
          cases h
          intro hnil
          rw [hnil] at he
          simp at he
        | some pat =>
          by_cases hf : ((outs.flatMap (fun out => (out.lookup k).getD [])).filter
              (passesFilter ctx pat)).isEmpty
          · simp [hf] at h
          · simp only [hf, if_false] at h
            cases h
            intro hnil
            rw [hnil] at hf
            simp at hf
  · intro x xs r h
    simp only [resolveInput, resolveMany] at h
    cases hx : resolveInput ctx x with
    | error e => rw [hx] at h; cases h
    | ok r1 =>
      rw [hx] at h
      cases hxs : resolveMany ctx xs with
      | error e => rw [hxs] at h; cases h
      | ok r2 =>
        rw [hxs] at h
        refine ⟨r1, r2, rfl, ?_, ?_⟩
        · simp only [resolveInput]
          exact hxs
        · cases h
          rfl

/-- Witness for the amended C7 theorem: at the demonstration context, the
glob input g resolves to the non-empty list containing p. -/
theorem resolveInput_nonempty_or_error_witness :
    ["p"] ≠ ([] : List String) :=
  (resolveInput_nonempty_or_error demoRCtx).1 "g" ["p"] (by rfl)

/-! ## Filesystem model

A finite association list from path to file content plus mtimeMs.
`fs.stat` is lookup (throwing stat = `none`), `fs.access` is presence. -/

structure FSFile where
  content : String
  mtime : Int
  deriving DecidableEq

abbrev FS := List (String × FSFile)

def fsStat (fs : FS) (p : String) : Option FSFile := fs.lookup p

def fsExistsB (fs : FS) (p : String) : Bool := (fsStat fs p).isSome

/-- Write (create or overwrite) a file. -/
def fsWrite (fs : FS) (p : String) (f : FSFile) : FS :=
  (p, f) :: fs.filter (fun e => e.1 ≠ p)

/-! ## CacheEntry (cache.ts lines 369-423)

`trackedFiles` maps a path to hash, mtime and an origin tag.  The
`outputsByKey` field is declared as a record from output key to path
list; because the withCache call site passes a plain array in that
position (see `withCache` below), the field is modelled as a sum of the
two value shapes that actually occur at runtime, with the JS iteration
semantics of each (Object.values of an array yields its elements; for-of
over a string yields its characters). -/

inductive Source where
  | item
  | fileRef
  | discovered
  | explicit
  deriving DecidableEq

structure TrackInfo where
  hash : String
  timestamp : Int
  source : Source
  deriving DecidableEq

structure UpstreamInfo where
  signature : String
  outputKey : String
  filterGlob : Option String
  deriving DecidableEq

/-- The runtime value stored in the outputsByKey field: either the record
the interface declares, or the flat path array the withCache call site
actually passes. -/
inductive OutputsVal where
  | record (m : List (String × List String))
  | flatArray (ps : List String)
  deriving DecidableEq

/-- The runtime value stored in the itemKey field: the interface declares
a string, but the withCache call site passes the (optional) discovered
dependency array in that position. -/
inductive JKey where
  | jstr (s : String)
  | jlistOpt (xs : Option (List String))
  deriving DecidableEq

structure CacheEntry where
  outputsByKey : OutputsVal
  outputBaseDir : String
  trackedFiles : List (String × TrackInfo)
  upstreamOutputSignatures : Option (List (String × UpstreamInfo))
  timestamp : Int
  itemKey : JKey
  deriving DecidableEq

/-! ## Cache validator (cache.ts lines 494-561) -/

/-- Check 1 of isValid: for each stored upstream record, reconstruct the
node-output reference, resolve it through the context, recompute the
output-set signature and compare; a resolution error (upstream has not
run) or a signature mismatch fails validation. -/
def checkUpstreams (sha256hex : String → String) (ctx : RCtx) :
    List (String × UpstreamInfo) → Bool
  | [] => true
  | (nodeName, info) :: rest =>
    match resolveInput ctx (.nodeRef nodeName info.outputKey info.filterGlob) with
    | .error _ => false
    | .ok currentPaths =>
      if computeOutputSignature sha256hex currentPaths = info.signature then
        checkUpstreams sha256hex ctx rest
      else false

/-- Checks 2 and 3 of isValid over the tracked files: stat each path
(missing file invalidates); an equal mtime is the fast path; otherwise
re-hash and compare (equal hash means touched but identical, still
valid; unequal hash invalidates). -/
def checkTracked (sha256hex : String → String) (fs : FS) :
    List (String × TrackInfo) → Bool
  | [] => true
  | (p, info) :: rest =>
    match fsStat fs p with
    | none => false
    | some f =>
      if f.mtime = info.timestamp then checkTracked sha256hex fs rest
      else if sha256hex f.content = info.hash then checkTracked sha256hex fs rest
      else false

/-- Check 4 of isValid: every output path must exist.  On the record
shape this walks each key's path list; on the flat-array shape the JS
for-of loop walks the characters of each path string, so each character
is access-checked as a one-character path. -/
def checkOutputs (fs : FS) : OutputsVal → Bool
  | .record m => m.all (fun kv => kv.2.all (fun p => fsExistsB fs p))
  | .flatArray ps => ps.all (fun s => s.data.all (fun c => fsExistsB fs ⟨[c]⟩))

/-- The upstream-signature stage of isValid as guarded in the source: it
only runs when the entry carries upstreamOutputSignatures AND a context
with resolveInput was supplied. -/
def upstreamOk (sha256hex : String → String) (ctx : Option RCtx) (entry : CacheEntry) : Bool :=
  match entry.upstreamOutputSignatures, ctx with
  | some us, some c => checkUpstreams sha256hex c us
  | _, _ => true

/-- CacheManager.isValid (cache.ts lines 494-561): the four-tier check. -/
def isValid (sha256hex : String → String) (fs : FS) (ctx : Option RCtx)
    (entry : CacheEntry) : Bool :=
  upstreamOk sha256hex ctx entry &&
  checkTracked sha256hex fs entry.trackedFiles &&
  checkOutputs fs entry.outputsByKey

lemma checkUpstreams_false_of_mem (sha256hex : String → String) (ctx : RCtx)
    (us : List (String × UpstreamInfo)) (n : String) (info : UpstreamInfo)
    (hmem : (n, info) ∈ us)
    (hfail : match resolveInput ctx (.nodeRef n info.outputKey info.filterGlob) with
      | .error _ => True
      | .ok paths => computeOutputSignature sha256hex paths ≠ info.signature) :
    checkUpstreams sha256hex ctx us = false := by
  induction us with
  | nil => cases hmem
  | cons hd rest ih =>
    obtain ⟨hn, hinfo⟩ := hd
    rcases List.mem_cons.mp hmem with heq | hmem2
    · injection heq with h1 h2
      subst h1; subst h2
      simp only [checkUpstreams]
      cases hres : resolveInput ctx (.nodeRef n info.outputKey info.filterGlob) with
      | error e => rfl
      | ok paths =>
        rw [hres] at hfail
        simp [hfail]
    · simp only [checkUpstreams]
      cases hres : resolveInput ctx (.nodeRef hn hinfo.outputKey hinfo.filterGlob) with
      | error e => rfl
      | ok paths =>
        by_cases hsig : computeOutputSignature sha256hex paths = hinfo.signature
        · simp only [hsig, if_pos rfl]
          exact ih hmem2
        · simp [hsig]

/-- Claim C2 (upstream-set invalidation): whenever a cache entry records
an upstream output signature and resolving the reconstructed reference
through the context either fails (upstream has not run) or yields a path
set whose recomputed signature differs from the stored one, isValid
rejects the entry. -/
theorem isValid_false_of_upstream_change (sha256hex : String → String) (fs : FS)
    (ctx : RCtx) (entry : CacheEntry) (us : List (String × UpstreamInfo))
    (n : String) (info : UpstreamInfo)
    (hus : entry.upstreamOutputSignatures = some us)
    (hmem : (n, info) ∈ us)
    (hfail : match resolveInput ctx (.nodeRef n info.outputKey info.filterGlob) with
      | .error _ => True
      | .ok paths => computeOutputSignature sha256hex paths ≠ info.signature) :
    isValid sha256hex fs (some ctx) entry = false := by
  unfold isValid upstreamOk
  rw [hus]
  show (checkUpstreams sha256hex ctx us &&
    checkTracked sha256hex fs entry.trackedFiles &&
    checkOutputs fs entry.outputsByKey) = false
  rw [checkUpstreams_false_of_mem sha256hex ctx us n info hmem hfail]
  rfl

/-- Witness for C2: a concrete entry referencing upstream node A whose
re-resolution yields a path set with a different signature; isValid
rejects it. -/
theorem isValid_false_of_upstream_change_witness :
    isValid (fun s => s) [] (some demoRCtx)
      { outputsByKey := .record []
        outputBaseDir := "d"
        trackedFiles := []
        upstreamOutputSignatures := some [("A", ⟨"stale-signature", "out", none⟩)]
        timestamp := 0
        itemKey := .jstr "k" } = false := by
  apply isValid_false_of_upstream_change (fun s => s) [] demoRCtx _
    [("A", ⟨"stale-signature", "out", none⟩)] "A" ⟨"stale-signature", "out", none⟩ rfl
  · exact List.mem_singleton.mpr rfl
  · show computeOutputSignature (fun s => s) ["p"] ≠ "stale-signature"
    decide

lemma checkTracked_true_of_hash_match (sha256hex : String → String) (fs : FS)
    (tl : List (String × TrackInfo))
    (h : ∀ pi ∈ tl, ∃ f, fsStat fs pi.1 = some f ∧ sha256hex f.content = pi.2.hash) :
    checkTracked sha256hex fs tl = true := by
  induction tl with
  | nil => rfl
  | cons hd rest ih =>
    obtain ⟨p, info⟩ := hd
    obtain ⟨f, hstat, hhash⟩ := h (p, info) (List.mem_cons_self _ _)
    simp only [checkTracked, hstat]
    by_cases ht : f.mtime = info.timestamp
    · simp only [ht, if_pos rfl]
      exact ih (fun pi hpi => h pi (List.mem_cons_of_mem _ hpi))
    · rw [if_neg ht, if_pos hhash]
      exact ih (fun pi hpi => h pi (List.mem_cons_of_mem _ hpi))

/-- Claim C4 (touch-but-identical): if every tracked file of an entry is
present and its re-hash equals the stored hash — regardless of whether
its modification timestamp still matches the stored one — the tracked
file checks pass, and the entry validates whenever the upstream check and
the output-existence check also pass.  In particular, updating a tracked
file's mtime without changing its content never invalidates the entry. -/
theorem isValid_true_of_touched_but_identical (sha256hex : String → String)
    (fs : FS) (ctx : Option RCtx) (entry : CacheEntry)
    (htracked : ∀ pi ∈ entry.trackedFiles,
      ∃ f, fsStat fs pi.1 = some f ∧ sha256hex f.content = pi.2.hash)
    (hup : upstreamOk sha256hex ctx entry = true)
    (hout : checkOutputs fs entry.outputsByKey = true) :
    isValid sha256hex fs ctx entry = true := by
  unfold isValid
  rw [hup, checkTracked_true_of_hash_match sha256hex fs entry.trackedFiles htracked, hout]
  rfl

/-- Witness for C4: a concrete file whose mtime changed from 100 to 777
while its content (hence hash) stayed the same; the entry still
validates. -/
theorem isValid_true_of_touched_but_identical_witness :
    isValid (fun s => "h" ++ s) [("in/a.xml", ⟨"A", 777⟩), ("out/a.html", ⟨"O", 5⟩)] none
      { outputsByKey := .record [("transformed", ["out/a.html"])]
        outputBaseDir := "d"
        trackedFiles := [("in/a.xml", ⟨"hA", 100, .item⟩)]
        upstreamOutputSignatures := none
        timestamp := 0
        itemKey := .jstr "k" } = true := by
  apply isValid_true_of_touched_but_identical
  · intro pi hpi
    rcases List.mem_singleton.mp hpi with h
    subst h
    exact ⟨⟨"A", 777⟩, rfl, rfl⟩
  · rfl
  · rfl

/-! ## Cache store (cache.ts lines 451-480, 580-597, 746-763)

The store is modelled as a list of ((directory, filename), entry): the
directory is the sanitised content signature, the filename is the
sanitised item key plus ".json", exactly as getCachePath builds them. -/

abbrev Cache := List ((String × String) × CacheEntry)

def cacheFileName (itemKey : String) : String := sanitizeKey itemKey ++ ".json"

/-- CacheManager.getCachePath: cacheDir/sanitised-signature/sanitised-key.json,
returned here as the (directory, filename) pair under the cache root. -/
def getCachePathParts (contentSignature : String) (itemKey : String) : String × String :=
  (sanitizeNodeName contentSignature, cacheFileName itemKey)

/-- CacheManager.getCache: read the entry file; a missing file is a miss. -/
def getCache (cache : Cache) (contentSignature : String) (itemKey : String) :
    Option CacheEntry :=
  cache.lookup (getCachePathParts contentSignature itemKey)

/-- CacheManager.setCache: create or overwrite the entry file. -/
def setCache (cache : Cache) (contentSignature : String) (itemKey : String)
    (entry : CacheEntry) : Cache :=
  (getCachePathParts contentSignature itemKey, entry) ::
    cache.filter (fun e => e.1 ≠ getCachePathParts contentSignature itemKey)

/-- CacheManager.cleanExcept (cache.ts lines 580-597): delete every file
in the signature directory whose basename is not among the sanitised
current keys (with the .json suffix); other directories are untouched. -/
def cleanExcept (cache : Cache) (contentSignature : String)
    (currentItemKeys : List String) : Cache :=
  cache.filter (fun e =>
    decide (e.1.1 ≠ sanitizeNodeName contentSignature) ||
    decide (e.1.2 ∈ currentItemKeys.map cacheFileName))

lemma lookup_filter_of_key_kept {β : Type} (l : List ((String × String) × β))
    (key : String × String) (p : (String × String) × β → Bool)
    (hp : ∀ e ∈ l, e.1 = key → p e = true) :
    (l.filter p).lookup key = l.lookup key := by
  induction l with
  | nil => rfl
  | cons hd rest ih =>
    by_cases hkey : hd.1 = key
    · have hphd : p hd = true := hp hd (List.mem_cons_self _ _) hkey
      rw [List.filter_cons_of_pos hphd]
      have hbeq : (key == hd.1) = true := by
        rw [beq_iff_eq]; exact hkey.symm
      simp only [List.lookup, hbeq]
    · have hbeq : (key == hd.1) = false := by
        rw [beq_eq_false_iff_ne]; exact fun h => hkey h.symm
      by_cases hphd : p hd = true
      · rw [List.filter_cons_of_pos hphd]
        simp only [List.lookup, hbeq]
        exact ih (fun e he hek => hp e (List.mem_cons_of_mem _ he) hek)
      · rw [List.filter_cons_of_neg (by simpa using hphd)]
        rw [ih (fun e he hek => hp e (List.mem_cons_of_mem _ he) hek)]
        simp only [List.lookup, hbeq]

/-- Claim C10 (pruning preserves current entries): cleanExcept never
removes the file of any key in the keep list — the lookup at that key's
cache path is unchanged — and every removed file lies in the signature's
directory with a basename outside the sanitised keep set. -/
theorem cleanExcept_preserves_kept (cache : Cache) (sig : String)
    (keys : List String) (k : String) (hk : k ∈ keys) :
    getCache (cleanExcept cache sig keys) sig k = getCache cache sig k ∧
    (∀ e ∈ cache, e ∉ cleanExcept cache sig keys →
      e.1.1 = sanitizeNodeName sig ∧ e.1.2 ∉ keys.map cacheFileName) := by
  constructor
  · unfold getCache cleanExcept getCachePathParts
    apply lookup_filter_of_key_kept
    intro e _ hek
    have h2 : e.1.2 = cacheFileName k := by rw [hek]
    rw [h2]
    simp only [Bool.or_eq_true, decide_eq_true_iff]
    exact Or.inr (List.mem_map.mpr ⟨k, hk, rfl⟩)
  · intro e hmem hnot
    unfold cleanExcept at hnot
    have hcond : ¬ ((decide (e.1.1 ≠ sanitizeNodeName sig) ||
        decide (e.1.2 ∈ keys.map cacheFileName)) = true) := by
      intro hc
      exact hnot (List.mem_filter.mpr ⟨hmem, hc⟩)
    simp only [Bool.or_eq_true, decide_eq_true_iff, not_or] at hcond
    exact ⟨not_not.mp hcond.1, hcond.2⟩

/-- Witness for C10: a concrete cache with one kept entry, one orphan in
the same signature directory and one entry of another signature; the
kept entry's lookup is unchanged and every removed file is an orphan of
this signature directory. -/
theorem cleanExcept_preserves_kept_witness :
    "book.xml" ∈ ["book.xml"] ∧
    getCache (cleanExcept
        [((sanitizeNodeName "Sig-1", cacheFileName "book.xml"),
          { outputsByKey := .record []
            outputBaseDir := "d"
            trackedFiles := []
            upstreamOutputSignatures := none
            timestamp := 0
            itemKey := .jstr "book.xml" }),
         ((sanitizeNodeName "Sig-1", cacheFileName "gone.xml"),
          { outputsByKey := .record []
            outputBaseDir := "d"
            trackedFiles := []
            upstreamOutputSignatures := none
            timestamp := 0
            itemKey := .jstr "gone.xml" })]
        "Sig-1" ["book.xml"]) "Sig-1" "book.xml" =
      getCache
        [((sanitizeNodeName "Sig-1", cacheFileName "book.xml"),
          { outputsByKey := .record []
            outputBaseDir := "d"
            trackedFiles := []
            upstreamOutputSignatures := none
            timestamp := 0
            itemKey := .jstr "book.xml" }),
         ((sanitizeNodeName "Sig-1", cacheFileName "gone.xml"),
          { outputsByKey := .record []
            outputBaseDir := "d"
            trackedFiles := []
            upstreamOutputSignatures := none
            timestamp := 0
            itemKey := .jstr "gone.xml" })]
        "Sig-1" "book.xml" := by
  refine ⟨List.mem_singleton.mpr rfl, ?_⟩
  exact (cleanExcept_preserves_kept _ "Sig-1" ["book.xml"] "book.xml"
    (List.mem_singleton.mpr rfl)).1

/-! ## Node configuration and content signature (pipeline.ts lines 809-878)

A node's processing-config values may be fileRef handles, node-output
references, nested objects, or plain JSON primitives and functions
(modelled opaquely as `prim`). -/

inductive ConfigValue where
  | fileRefV (p : String)
  | nodeRefV (nodeName : String) (outputKey : String) (filterGlob : Option String)
  | obj (fields : List (String × ConfigValue))
  | prim (s : String)

structure NodeCfg where
  className : String
  name : String
  items : Option Input
  config : List (String × ConfigValue)
  outputConfig : List (String × String)
  explicitDependencies : Option (List String)

/-- External Node builtins used by the signature computation: SHA-256 hex
digest, path.resolve, and JSON.stringify with a replacer key list. -/
structure Ext where
  sha256hex : String → String
  resolveAbs : String → String
  jsonStr : List String → List (String × ConfigValue) → String

mutual

/-- JS string conversion used by `this.items.join(",")` on an array items
spec: strings stay themselves, objects become "[object Object]", nested
arrays join recursively. -/
def itemsJoin : Input → String
  | .globPat s => s
  | .nodeRef _ _ _ => "[object Object]"
  | .arr xs => itemsJoinList xs

def itemsJoinList : List Input → String
  | [] => ""
  | [x] => itemsJoin x
  | x :: y :: rest => itemsJoin x ++ "," ++ itemsJoinList (y :: rest)

end

/-- PipelineNode.getContentSignature (pipeline.ts lines 847-878): combine
the fileRef identities `key:absolutePath` (sorted), the JSON of the
remaining processing config with sorted keys, and the items signature;
hash and prepend the class name.  The outputConfig is never read. -/
def getContentSignature (E : Ext) (node : NodeCfg) : String :=
  let fileRefs := node.config.filterMap (fun kv =>
    match kv.2 with
    | .fileRefV p => some (kv.1 ++ ":" ++ E.resolveAbs p)
    | _ => none)
  let processingConfig := node.config.filter (fun kv =>
    match kv.2 with
    | .fileRefV _ => false
    | _ => true)
  let itemsSignature := match node.items with
    | none => ""
    | some (.globPat s) => "items:" ++ s
    | some (.arr xs) => "items:[" ++ itemsJoinList xs ++ "]"
    | some (.nodeRef n k _) => "items:" ++ n ++ ":" ++ k
  let configString := E.jsonStr (sortStrings (processingConfig.map (fun kv => kv.1))) processingConfig
  let combined := String.intercalate "|"
    ((sortStrings fileRefs ++ [configString, itemsSignature]).filter (fun x => x ≠ ""))
  node.className ++ "-" ++ ⟨(E.sha256hex combined).data.take 8⟩

/-- Claim C6 (presentation-only noninterference): two configurations of
the same node class differing only in the output config produce the same
content signature — getContentSignature never reads outputConfig. -/
theorem getContentSignature_ignores_outputConfig (E : Ext) (node : NodeCfg)
    (oc : List (String × String)) :
    getContentSignature E { node with outputConfig := oc } =
    getContentSignature E node := rfl

/-! ## Cache entry construction (cache.ts lines 675-741) -/

/-- JS object index assignment: replace in place when the key exists,
append otherwise. -/
def upsert {β : Type} (l : List (String × β)) (k : String) (v : β) : List (String × β) :=
  if l.any (fun kv => kv.1 == k) then
    l.map (fun kv => if kv.1 == k then (k, v) else kv)
  else l ++ [(k, v)]

/-- Hash and stat a batch of paths into the tracked-file map with a given
origin tag, silently skipping missing files. -/
def trackFiles (sha256hex : String → String) (fs : FS) (src : Source)
    (paths : List String) (acc : List (String × TrackInfo)) : List (String × TrackInfo) :=
  paths.foldl (fun acc p =>
    match fsStat fs p with
    | none => acc
    | some f => upsert acc p ⟨sha256hex f.content, f.mtime, src⟩) acc

/-- CacheManager.buildCacheEntry (cache.ts lines 675-741): track the item
paths (origin item), the fileRef paths from the precomputed hash map
(origin fileRef; skipped entirely when either the fileRef list or the
precomputed map is absent), and the discovered dependencies (origin
discovered). -/
def buildCacheEntry (sha256hex : String → String) (fs : FS) (now : Int)
    (itemPaths : List String) (outputsByKey : OutputsVal) (outputBaseDir : String)
    (itemKey : JKey) (discoveredDependencies : Option (List String))
    (fileRefPaths : Option (List String))
    (upstreamOutputSignatures : Option (List (String × UpstreamInfo)))
    (precomputedHashes : Option (List (String × String × Int))) : CacheEntry :=
  let t1 := trackFiles sha256hex fs .item itemPaths []
  let t2 := match fileRefPaths, precomputedHashes with
    | some frs, some pre =>
      frs.foldl (fun acc p =>
        match pre.lookup p with
        | some hi => upsert acc p ⟨hi.1, hi.2, .fileRef⟩
        | none => acc) t1
    | _, _ => t1
  let t3 := match discoveredDependencies with
    | some ds => trackFiles sha256hex fs .discovered ds t2
    | none => t2
  { outputsByKey := outputsByKey
    outputBaseDir := outputBaseDir
    trackedFiles := t3
    upstreamOutputSignatures := upstreamOutputSignatures
    timestamp := now
    itemKey := itemKey }

/-! ## The withCache wrapper (pipeline.ts lines 881-958) -/

mutual

/-- The recursive config walk of withCache (processConfigValue): fileRef
values contribute their path, node-output references are eagerly
resolved (errors propagate), plain objects are walked recursively,
primitives and functions contribute nothing. -/
def collectFromValue (ctx : RCtx) : ConfigValue → Except String (List String)
  | .fileRefV p => .ok [p]
  | .nodeRefV n k g => resolveInput ctx (.nodeRef n k g)
  | .obj fields => collectFromFields ctx fields
  | .prim _ => .ok []

def collectFromFields (ctx : RCtx) : List (String × ConfigValue) → Except String (List String)
  | [] => .ok []
  | (_, v) :: rest => do
    let r ← collectFromValue ctx v
    let rs ← collectFromFields ctx rest
    .ok (r ++ rs)

end

/-- The mutable runtime state threaded through the embedding: filesystem,
cache store, log lines, per-node outputs and the trace of node names
whose run method has been invoked. -/
structure PSt where
  fs : FS
  cache : Cache
  log : List String
  nodeOutputs : List (String × List NodeOut)
  trace : List String
  deriving DecidableEq

structure RRow where
  item : String
  output : String
  cached : Bool
  deriving DecidableEq

/-- The shapes performWork may return: a plain value (or void), or an
object carrying discoveredDependencies. -/
inductive WorkRet where
  | plain
  | withDeps (deps : Option (List String))
  deriving DecidableEq

/-- The discovered-dependency extraction of withCache: present only when
the work result is an object carrying that property. -/
def wcDeps : WorkRet → Option (List String)
  | .plain => none
  | .withDeps d => d

/-- The per-item loop of withCache.  On a hit (stored entry present and
isValid — called without a context, as in the source) the skip message is
logged and then the source dereferences `cached.outputPaths[0]`, a field
that does not exist on CacheEntry, raising a TypeError.  On a miss,
performWork runs, and the new entry is stored via the five-positional
buildCacheEntry call of the source, which lands `[outputPath]` in the
outputsByKey parameter, the cache key in outputBaseDir, the discovered
dependencies in itemKey, and the config dependency paths in
discoveredDependencies (no fileRefPaths, upstream signatures or
precomputed hashes are passed). -/
def wcLoop (E : Ext) (now : Int) (sig : String) (cfgDeps : List String)
    (getOutputPath : String → String)
    (performWork : String → String → FS → FS × Except String WorkRet) :
    List (String × String) → PSt → PSt × Except String (List RRow)
  | [], st => (st, .ok [])
  | (item, cacheKey) :: rest, st =>
    let outputPath := getOutputPath item
    let hit := match getCache st.cache sig cacheKey with
      | some cached => isValid E.sha256hex st.fs none cached
      | none => false
    if hit then
      ({ st with log := st.log ++ ["  - Skipping: " ++ item ++ " (cached)"] },
       .error "TypeError: Cannot read properties of undefined (reading 0)")
    else
      match performWork item outputPath st.fs with
      | (fs2, .error e) => ({ st with fs := fs2 }, .error e)
      | (fs2, .ok w) =>
        let entry := buildCacheEntry E.sha256hex fs2 now [item] (.flatArray [outputPath])
          cacheKey (.jlistOpt (wcDeps w)) (some cfgDeps) none none none
        let st2 := { st with fs := fs2, cache := setCache st.cache sig cacheKey entry }
        match wcLoop E now sig cfgDeps getOutputPath performWork rest st2 with
        | (st3, .error e) => (st3, .error e)
        | (st3, .ok rows) =>
          (st3, .ok ({ item := item, output := outputPath, cached := false } :: rows))

/-- PipelineNode.withCache (pipeline.ts lines 881-958): content
signature, config walk, clean the signature directory down to the
current keys, then the per-item loop. -/
def withCache (E : Ext) (node : NodeCfg) (rctx : RCtx) (st : PSt)
    (items : List String) (getCacheKey getOutputPath : String → String)
    (performWork : String → String → FS → FS × Except String WorkRet)
    (now : Int) : PSt × Except String (List RRow) :=
  let sig := getContentSignature E node
  match collectFromFields rctx node.config with
  | .error e => (st, .error e)
  | .ok cfgDeps =>
    let cacheKeys := items.map getCacheKey
    let st2 := { st with cache := cleanExcept st.cache sig cacheKeys }
    wcLoop E now sig cfgDeps getOutputPath performWork (items.zip cacheKeys) st2

/-! ## Concrete two-run scenario (spec scenario 2)

A node with one item and one configured fileRef stylesheet, run twice
with no filesystem change in between. -/

def demoExt : Ext :=
  { sha256hex := fun s => "h-" ++ s
    resolveAbs := fun p => "/root/" ++ p
    jsonStr := fun _ kvs => "cfg-" ++ String.intercalate "," (kvs.map (fun kv => kv.1)) }

def demoNode : NodeCfg :=
  { className := "SefTransformNode"
    name := "B"
    items := some (.globPat "in/*.xml")
    config := [("stylesheet", .fileRefV "styles.xsl")]
    outputConfig := [("outputDir", "3-output")]
    explicitDependencies := none }

def demoFS0 : FS := [("in/a.xml", ⟨"A", 100⟩), ("styles.xsl", ⟨"S", 50⟩)]

def demoSt0 : PSt := { fs := demoFS0, cache := [], log := [], nodeOutputs := [], trace := [] }

/-- The node's work: write the output file. -/
def demoWork : String → String → FS → FS × Except String WorkRet :=
  fun _ outputPath fs => (fsWrite fs outputPath ⟨"OUT", 200⟩, .ok .plain)

def demoSig : String := getContentSignature demoExt demoNode

def demoRun1 : PSt × Except String (List RRow) :=
  withCache demoExt demoNode demoRCtx demoSt0 ["in/a.xml"]
    (fun item => item ++ "-key") (fun _ => "out/a.html") demoWork 500

def demoRun2 : PSt × Except String (List RRow) :=
  withCache demoExt demoNode demoRCtx demoRun1.1 ["in/a.xml"]
    (fun item => item ++ "-key") (fun _ => "out/a.html") demoWork 900

instance {ε α : Type} [DecidableEq ε] [DecidableEq α] : DecidableEq (Except ε α) := by
  intro a b
  cases a <;> cases b
  case error.error x y =>
    exact if h : x = y then .isTrue (by rw [h]) else .isFalse (by intro hc; cases hc; exact h rfl)
  case error.ok x y => exact .isFalse (by intro hc; cases hc)
  case ok.error x y => exact .isFalse (by intro hc; cases hc)
  case ok.ok x y =>
    exact if h : x = y then .isTrue (by rw [h]) else .isFalse (by intro hc; cases hc; exact h rfl)

def emptyEntry : CacheEntry :=
  { outputsByKey := .record []
    outputBaseDir := ""
    trackedFiles := []
    upstreamOutputSignatures := none
    timestamp := 0
    itemKey := .jstr "" }

/-- Claim C1 is violated by the code (code bug): across two identical
runs the stored entry is found, all its tracked files still match and
the recorded output file still exists on disk, yet the second run does
NOT skip the item — it reports cached := false (performWork ran again)
and never logs the skip message.  The cause: the withCache call site
passes the output path array into buildCacheEntry's outputsByKey
parameter, so validation iterates the characters of the path string as
paths and fails. -/
theorem withCache_second_run_not_cached :
    (getCache demoRun1.1.cache demoSig "in/a.xml-key").isSome = true ∧
    checkTracked demoExt.sha256hex demoRun2.1.fs
      ((getCache demoRun1.1.cache demoSig "in/a.xml-key").getD emptyEntry).trackedFiles = true ∧
    fsExistsB demoRun1.1.fs "out/a.html" = true ∧
    demoRun2.2 = .ok [{ item := "in/a.xml", output := "out/a.html", cached := false }] ∧
    (demoRun2.1.log.all (fun m => m ≠ "  - Skipping: in/a.xml (cached)")) = true := by
  decide

/-- Claim C3 is violated by the code (code bug): after the non-cached
run, the configured fileRef path is tracked with origin tag discovered,
not fileRef — the call site passes the config dependency paths in the
discoveredDependencies position and passes no precomputed hash map — and
the entry's itemKey field holds the (absent) discovered-dependency array
rather than the cache key, which instead lands in outputBaseDir. -/
theorem withCache_fileRef_tracked_as_discovered :
    (((getCache demoRun1.1.cache demoSig "in/a.xml-key").getD emptyEntry).trackedFiles.lookup
      "styles.xsl" = some ⟨"h-S", 50, .discovered⟩) ∧
    Source.discovered ≠ Source.fileRef ∧
    ((getCache demoRun1.1.cache demoSig "in/a.xml-key").getD emptyEntry).itemKey =
      JKey.jlistOpt none ∧
    ((getCache demoRun1.1.cache demoSig "in/a.xml-key").getD emptyEntry).outputBaseDir =
      "in/a.xml-key" := by
  decide

/-! ## Dependency graph and scheduler (pipeline.ts lines 1022-1087, 1204-1222)

The external dependency-graph library is modelled by a Kahn-style
topological sort: `overallOrder` returns an order in which every node
appears after its dependencies, and errors (DepGraphCycleError) exactly
when no such order exists. -/

def depsOf (edges : List (String × String)) (n : String) : List String :=
  (edges.filter (fun e => e.1 == n)).map (fun e => e.2)

def pickReady (edges : List (String × String)) (done remaining : List String) : Option String :=
  remaining.find? (fun n => (depsOf edges n).all (fun d => done.contains d))

def kahnAux (edges : List (String × String)) :
    Nat → List String → List String → List String × List String
  | 0, done, remaining => (done, remaining)
  | fuel + 1, done, remaining =>
    match pickReady edges done remaining with
    | none => (done, remaining)
    | some n => kahnAux edges fuel (done ++ [n]) (remaining.erase n)

/-- DepGraph.overallOrder: a dependencies-first order of all nodes, or
the cycle error when the edges admit no such order. -/
def overallOrder (ns : List String) (edges : List (String × String)) :
    Except String (List String) :=
  let res := kahnAux edges ns.length [] ns
  if res.2.isEmpty then .ok res.1 else .error "Dependency Cycle Found"

/-- Automatic dependency inferred from a node (setupAutomaticDependencies,
pipeline.ts lines 1045-1074): the node's items field when it is a
node-output reference.  The subsequent Object.entries pass over the
top-level config object re-encounters the same items value (idempotent);
no other top-level field of the node config is a node-output reference. -/
def autoEdgeOf (node : NodeCfg) : Option String :=
  match node.items with
  | some (.nodeRef un _ _) => some un
  | _ => none

/-- Edges from one node's explicit dependency list, validating that each
dependency is a registered node name (a missing name is a wrapped hard
error, pipeline.ts lines 1028-1040). -/
def explicitDepEdges (names : List String) (nname : String) :
    List String → Except String (List (String × String))
  | [] => .ok []
  | d :: ds =>
    if names.contains d then
      match explicitDepEdges names nname ds with
      | .error e => .error e
      | .ok rest => .ok ((nname, d) :: rest)
    else
      .error ("Failed to add explicit dependency for node " ++ nname ++
        ": Explicit dependency " ++ d ++ " not found in pipeline")

/-- setupExplicitDependencies: walk the nodes (the no-edge overall order
is the insertion order) collecting explicit edges. -/
def buildExplicitEdges (names : List String) :
    List NodeCfg → Except String (List (String × String))
  | [] => .ok []
  | node :: rest =>
    match explicitDepEdges names node.name (node.explicitDependencies.getD []) with
    | .error e => .error e
    | .ok es =>
      match buildExplicitEdges names rest with
      | .error e => .error e
      | .ok rest2 => .ok (es ++ rest2)

/-- setupAutomaticDependencies: collect the inferred items edges,
erroring (wrapped addDependency failure) on an unregistered target. -/
def buildAutoEdges (names : List String) :
    List NodeCfg → Except String (List (String × String))
  | [] => .ok []
  | node :: rest =>
    match autoEdgeOf node with
    | none => buildAutoEdges names rest
    | some un =>
      if names.contains un then
        match buildAutoEdges names rest with
        | .error e => .error e
        | .ok rest2 => .ok ((node.name, un) :: rest2)
      else
        .error ("Failed to add automatic dependency for node " ++ node.name ++
          ": Node does not exist: " ++ un)

/-- The complete declared edge set of a pipeline: explicit dependency
edges plus inferred items edges. -/
def declaredEdges (nodes : List NodeCfg) : List (String × String) :=
  (nodes.flatMap (fun n => (n.explicitDependencies.getD []).map (fun d => (n.name, d)))) ++
  (nodes.filterMap (fun n => (autoEdgeOf n).map (fun un => (n.name, un))))

/-- The execution loop of Pipeline.run (pipeline.ts lines 1204-1222):
for each node in order, log and trace its start, invoke its run; on
error log the failure by name with the message and rethrow; on success
record its outputs for downstream resolution. -/
def pipelineLoop (runFn : NodeCfg → PSt → PSt × Except String (List NodeOut))
    (nodes : List NodeCfg) : List String → PSt → PSt × Except String Unit
  | [], st => ({ st with log := st.log ++ ["Pipeline completed."] }, .ok ())
  | name :: rest, st =>
    match nodes.find? (fun m => m.name == name) with
    | none => (st, .error ("Node not found: " ++ name))
    | some node =>
      let st1 := { st with log := st.log ++ ["▶ Running node: " ++ name],
                           trace := st.trace ++ [name] }
      match runFn node st1 with
      | (st2, .error e) =>
        ({ st2 with log := st2.log ++ ["  - Failed: " ++ name, "    " ++ e] }, .error e)
      | (st2, .ok outs) =>
        pipelineLoop runFn nodes rest
          { st2 with nodeOutputs := upsert st2.nodeOutputs name outs,
                     log := st2.log ++ ["  - Completed: " ++ name] }

/-- Pipeline.run (pipeline.ts lines 1076-1222): set up explicit edges
(iterating the overall order of the still edge-free graph), then
automatic edges (iterating the overall order with explicit edges, which
already surfaces a cycle among them), then compute the execution order
(surfacing any remaining cycle) and run the nodes sequentially. -/
def pipelineRun (nodes : List NodeCfg)
    (runFn : NodeCfg → PSt → PSt × Except String (List NodeOut))
    (st0 : PSt) : PSt × Except String Unit :=
  match overallOrder (nodes.map (fun n => n.name)) [] with
  | .error e => (st0, .error e)
  | .ok _ord0 =>
    match buildExplicitEdges (nodes.map (fun n => n.name)) nodes with
    | .error e => (st0, .error e)
    | .ok exEdges =>
      match overallOrder (nodes.map (fun n => n.name)) exEdges with
      | .error e => (st0, .error e)
      | .ok _ord1 =>
        match buildAutoEdges (nodes.map (fun n => n.name)) nodes with
        | .error e => (st0, .error e)
        | .ok autoEdges =>
          match overallOrder (nodes.map (fun n => n.name)) (exEdges ++ autoEdges) with
          | .error e => (st0, .error e)
          | .ok ord2 => pipelineLoop runFn nodes ord2 st0

/-! ### Cycle lemmas -/

/-- A directed cycle: a non-empty node list each of whose successive
pairs (wrapping around) is an edge. -/
def isCyclePath (edges : List (String × String)) (cyc : List String) : Prop :=
  cyc ≠ [] ∧ ∀ p ∈ cyc.zip (cyc.rotate 1), p ∈ edges

instance (edges : List (String × String)) (cyc : List String) :
    Decidable (isCyclePath edges cyc) := by
  unfold isCyclePath
  infer_instance

lemma mem_zip_left {α β : Type} :
    ∀ (l1 : List α) (l2 : List β) (x : α), x ∈ l1 → l1.length = l2.length →
    ∃ y ∈ l2, (x, y) ∈ l1.zip l2 := by
  intro l1
  induction l1 with
  | nil => intro l2 x hx _; cases hx
  | cons a as ih =>
    intro l2 x hx hlen
    cases l2 with
    | nil => cases hlen
    | cons b bs =>
      rcases List.mem_cons.mp hx with rfl | hx2
      · exact ⟨b, List.mem_cons_self _ _, List.mem_cons_self _ _⟩
      · obtain ⟨y, hy, hzip⟩ := ih bs x hx2 (by simpa using hlen)
        exact ⟨y, List.mem_cons_of_mem _ hy, List.mem_cons_of_mem _ hzip⟩

/-- Every node on a cycle has a successor on the cycle. -/
lemma cycle_successor (edges : List (String × String)) (cyc : List String)
    (h : isCyclePath edges cyc) :
    ∀ c ∈ cyc, ∃ d ∈ cyc, (c, d) ∈ edges := by
  intro c hc
  obtain ⟨d, hd, hzip⟩ := mem_zip_left cyc (cyc.rotate 1) c hc (by simp)
  exact ⟨d, (List.mem_rotate).mp hd, h.2 _ hzip⟩

/-- Kahn's algorithm never emits a node of a set in which every node has
a successor: such nodes stay in the leftover. -/
lemma kahnAux_stalls (edges : List (String × String)) (S : List String)
    (hS : S ≠ []) (hsucc : ∀ c ∈ S, ∃ d ∈ S, (c, d) ∈ edges) :
    ∀ fuel done remaining, (∀ c ∈ S, c ∈ remaining) → (∀ c ∈ S, c ∉ done) →
    (kahnAux edges fuel done remaining).2 ≠ [] := by
  intro fuel
  induction fuel with
  | zero =>
    intro done remaining hrem _
    show remaining ≠ []
    rcases S with _ | ⟨s, S2⟩
    · exact absurd rfl hS
    · intro hempty
      have := hrem s (List.mem_cons_self _ _)
      rw [hempty] at this
      cases this
  | succ fuel ih =>
    intro done remaining hrem hdone
    simp only [kahnAux]
    cases hpick : pickReady edges done remaining with
    | none =>
      show remaining ≠ []
      rcases S with _ | ⟨s, S2⟩
      · exact absurd rfl hS
      · intro hempty
        have := hrem s (List.mem_cons_self _ _)
        rw [hempty] at this
        cases this
    | some n =>
      show (kahnAux edges fuel (done ++ [n]) (remaining.erase n)).2 ≠ []
      have hnS : n ∉ S := by
        intro hnmem
        have hpred := List.find?_some hpick
        obtain ⟨d, hdS, hedge⟩ := hsucc n hnmem
        have hddeps : d ∈ depsOf edges n := by
          unfold depsOf
          apply List.mem_map.mpr
          exact ⟨(n, d), List.mem_filter.mpr ⟨hedge, by simp⟩, rfl⟩
        have : done.contains d = true := by
          have hall := List.all_eq_true.mp hpred
          exact hall d hddeps
        have hdmem : d ∈ done := by
          simpa using this
        exact hdone d hdS hdmem
      apply ih (done ++ [n]) (remaining.erase n)
      · intro c hcS
        have hne : c ≠ n := fun h => hnS (h ▸ hcS)
        exact (List.mem_erase_of_ne hne).mpr (hrem c hcS)
      · intro c hcS hcmem
        rcases List.mem_append.mp hcmem with h1 | h2
        · exact hdone c hcS h1
        · have : c = n := by simpa using h2
          exact hnS (this ▸ hcS)

/-- A cycle among the graph's nodes makes overallOrder fail with the
cycle error. -/
lemma overallOrder_error_of_cycle (ns : List String)
    (edges : List (String × String)) (cyc : List String)
    (hcyc : isCyclePath edges cyc) (hsub : ∀ c ∈ cyc, c ∈ ns) :
    overallOrder ns edges = .error "Dependency Cycle Found" := by
  unfold overallOrder
  have hstall := kahnAux_stalls edges cyc hcyc.1 (cycle_successor edges cyc hcyc)
    ns.length [] ns hsub (by intro c _ hc; cases hc)
  have : (kahnAux edges ns.length [] ns).2.isEmpty = false := by
    cases hres : (kahnAux edges ns.length [] ns).2 with
    | nil => exact absurd hres hstall
    | cons a l => rfl
  simp [this]

/-- Kahn with no edges emits the nodes in insertion order. -/
lemma kahnAux_no_edges : ∀ (fuel : Nat) (done rem : List String),
    rem.length ≤ fuel → kahnAux [] fuel done rem = (done ++ rem, []) := by
  intro fuel
  induction fuel with
  | zero =>
    intro done rem hlen
    have : rem = [] := List.eq_nil_of_length_eq_zero (Nat.le_zero.mp hlen)
    subst this
    simp [kahnAux]
  | succ fuel ih =>
    intro done rem hlen
    cases rem with
    | nil => simp [kahnAux, pickReady]
    | cons r rs =>
      have hpick : pickReady [] done (r :: rs) = some r := by
        unfold pickReady depsOf
        simp [List.find?]
      simp only [kahnAux, hpick]
      rw [List.erase_cons_head]
      rw [ih (done ++ [r]) rs (by simpa using Nat.le_of_succ_le_succ hlen)]
      simp

lemma overallOrder_no_edges (ns : List String) :
    overallOrder ns [] = .ok ns := by
  unfold overallOrder
  rw [kahnAux_no_edges ns.length [] ns (Nat.le_refl _)]
  simp

/-! ### Edge-builder success lemmas -/

lemma explicitDepEdges_ok (names : List String) (nname : String) (ds : List String)
    (h : ∀ d ∈ ds, d ∈ names) :
    explicitDepEdges names nname ds = .ok (ds.map (fun d => (nname, d))) := by
  induction ds with
  | nil => rfl
  | cons d rest ih =>
    have hd : names.contains d = true := by
      simpa using h d (List.mem_cons_self _ _)
    simp only [explicitDepEdges, hd, if_pos rfl]
    rw [ih (fun x hx => h x (List.mem_cons_of_mem _ hx))]
    rfl

lemma buildExplicitEdges_ok (names : List String) (nodes : List NodeCfg)
    (h : ∀ n ∈ nodes, ∀ d ∈ n.explicitDependencies.getD [], d ∈ names) :
    buildExplicitEdges names nodes =
      .ok (nodes.flatMap (fun n => (n.explicitDependencies.getD []).map (fun d => (n.name, d)))) := by
  induction nodes with
  | nil => rfl
  | cons node rest ih =>
    simp only [buildExplicitEdges]
    rw [explicitDepEdges_ok names node.name _ (h node (List.mem_cons_self _ _))]
    rw [ih (fun n hn => h n (List.mem_cons_of_mem _ hn))]
    simp

lemma buildAutoEdges_ok (names : List String) (nodes : List NodeCfg)
    (h : ∀ n ∈ nodes, ∀ un, autoEdgeOf n = some un → un ∈ names) :
    buildAutoEdges names nodes =
      .ok (nodes.filterMap (fun n => (autoEdgeOf n).map (fun un => (n.name, un)))) := by
  induction nodes with
  | nil => rfl
  | cons node rest ih =>
    simp only [buildAutoEdges]
    cases hauto : autoEdgeOf node with
    | none =>
      rw [ih (fun n hn => h n (List.mem_cons_of_mem _ hn))]
      simp [List.filterMap_cons, hauto]
    | some un =>
      have hun : names.contains un = true := by
        simpa using h node (List.mem_cons_self _ _) un hauto
      simp only [hun, if_pos rfl]
      rw [ih (fun n hn => h n (List.mem_cons_of_mem _ hn))]
      simp [List.filterMap_cons, hauto]

lemma declaredEdges_src_mem (nodes : List NodeCfg) (edge : String × String)
    (h : edge ∈ declaredEdges nodes) : edge.1 ∈ nodes.map (fun n => n.name) := by
  unfold declaredEdges at h
  rcases List.mem_append.mp h with h1 | h2
  · obtain ⟨n, hn, hmem⟩ := List.mem_flatMap.mp h1
    obtain ⟨d, _, hpair⟩ := List.mem_map.mp hmem
    rw [← hpair]
    exact List.mem_map.mpr ⟨n, hn, rfl⟩
  · obtain ⟨n, hn, hmem⟩ := List.mem_filterMap.mp h2
    cases hauto : autoEdgeOf n with
    | none => rw [hauto] at hmem; cases hmem
    | some un =>
      rw [hauto] at hmem
      injection hmem with hpair
      rw [← hpair]
      exact List.mem_map.mpr ⟨n, hn, rfl⟩

/-- Claim C8 (cycle detection precedes execution): when the explicit and
inferred dependency edges of the registered nodes contain a cycle (and
every referenced dependency is a registered node name), Pipeline.run
surfaces the cycle error and no node's run method is ever invoked (the
state, including the invocation trace, is returned untouched). -/
theorem pipelineRun_cycle_no_execution (nodes : List NodeCfg)
    (runFn : NodeCfg → PSt → PSt × Except String (List NodeOut)) (st0 : PSt)
    (cyc : List String)
    (htargets : ∀ edge ∈ declaredEdges nodes, edge.2 ∈ nodes.map (fun n => n.name))
    (hcyc : isCyclePath (declaredEdges nodes) cyc) :
    (pipelineRun nodes runFn st0).2 = .error "Dependency Cycle Found" ∧
    (pipelineRun nodes runFn st0).1.trace = st0.trace := by
  have hsub : ∀ c ∈ cyc, c ∈ nodes.map (fun n => n.name) := by
    intro c hc
    obtain ⟨d, _, hedge⟩ := cycle_successor _ cyc hcyc c hc
    exact declaredEdges_src_mem nodes (c, d) hedge
  have hex : ∀ n ∈ nodes, ∀ d ∈ n.explicitDependencies.getD [],
      d ∈ nodes.map (fun m => m.name) := by
    intro n hn d hd
    apply htargets (n.name, d)
    unfold declaredEdges
    apply List.mem_append.mpr
    exact Or.inl (List.mem_flatMap.mpr ⟨n, hn, List.mem_map.mpr ⟨d, hd, rfl⟩⟩)
  have hauto : ∀ n ∈ nodes, ∀ un, autoEdgeOf n = some un →
      un ∈ nodes.map (fun m => m.name) := by
    intro n hn un hun
    apply htargets (n.name, un)
    unfold declaredEdges
    apply List.mem_append.mpr
    refine Or.inr (List.mem_filterMap.mpr ⟨n, hn, ?_⟩)
    rw [hun]
    rfl
  have hfull : pipelineRun nodes runFn st0 = (st0, .error "Dependency Cycle Found") := by
    unfold pipelineRun
    rw [overallOrder_no_edges]
    rw [buildExplicitEdges_ok _ _ hex]
    rw [buildAutoEdges_ok _ _ hauto]
    dsimp only
    cases hord1 : overallOrder (nodes.map (fun n => n.name))
        (nodes.flatMap (fun n => (n.explicitDependencies.getD []).map (fun d => (n.name, d)))) with
    | error e =>
      have : e = "Dependency Cycle Found" := by
        unfold overallOrder at hord1
        by_cases hres : (kahnAux
            (nodes.flatMap (fun n => (n.explicitDependencies.getD []).map (fun d => (n.name, d))))
            (nodes.map (fun n => n.name)).length []
            (nodes.map (fun n => n.name))).2.isEmpty
        · rw [if_pos hres] at hord1; cases hord1
        · rw [if_neg hres] at hord1
          injection hord1 with h
          exact h.symm
      subst this
      rfl
    | ok ord1 =>
      have hcycleErr := overallOrder_error_of_cycle (nodes.map (fun n => n.name))
        (declaredEdges nodes) cyc hcyc hsub
      unfold declaredEdges at hcycleErr
      dsimp only
      rw [hcycleErr]
  rw [hfull]
  exact ⟨rfl, rfl⟩

/-- Three nodes whose explicit dependencies form the cycle A→B→C→A
(spec scenario 6). -/
def cycNodes : List NodeCfg :=
  [ { className := "N", name := "A", items := none, config := [],
      outputConfig := [], explicitDependencies := some ["B"] },
    { className := "N", name := "B", items := none, config := [],
      outputConfig := [], explicitDependencies := some ["C"] },
    { className := "N", name := "C", items := none, config := [],
      outputConfig := [], explicitDependencies := some ["A"] } ]

/-- Witness for C8: running the three-node cyclic pipeline fails with
the cycle error and leaves the trace untouched. -/
theorem pipelineRun_cycle_no_execution_witness :
    (pipelineRun cycNodes (fun _ st => (st, .ok [])) demoSt0).2 =
      .error "Dependency Cycle Found" ∧
    (pipelineRun cycNodes (fun _ st => (st, .ok [])) demoSt0).1.trace = demoSt0.trace := by
  apply pipelineRun_cycle_no_execution cycNodes _ demoSt0 ["A", "B", "C"]
  · decide
  · decide

/-! ## Node failure (claim C5)

A node whose run wraps withCache: a raised error propagates through
Pipeline.run, which logs the failure by name and message and stops. -/

/-- A single-node pipeline whose node's run is the withCache loop over
the given items (the shape every concrete node class uses). -/
def singleNodeRun (E : Ext) (node : NodeCfg) (rctx : RCtx) (items : List String)
    (gk gop : String → String)
    (work : String → String → FS → FS × Except String WorkRet) (now : Int)
    (st0 : PSt) : PSt × Except String Unit :=
  pipelineRun [node]
    (fun nd st =>
      match withCache E nd rctx st items gk gop work now with
      | (st2, .error err) => (st2, .error err)
      | (st2, .ok rows) => (st2, .ok (rows.map (fun r => [("transformed", [r.output])]))))
    st0

def failNode : NodeCfg :=
  { className := "SefTransformNode"
    name := "N"
    items := some (.globPat "in/*.xml")
    config := [("stylesheet", .fileRefV "styles.xsl")]
    outputConfig := []
    explicitDependencies := none }

def failFS : FS :=
  [("in/a.xml", ⟨"A", 100⟩), ("in/b.xml", ⟨"B", 110⟩), ("styles.xsl", ⟨"S", 50⟩)]

/-- Work that succeeds on the first item and raises on the second. -/
def failWork : String → String → FS → FS × Except String WorkRet :=
  fun item outputPath fs =>
    if item = "in/b.xml" then (fs, .error "boom")
    else (fsWrite fs outputPath ⟨"OUT", 200⟩, .ok .plain)

def failSt0 : PSt := { fs := failFS, cache := [], log := [], nodeOutputs := [], trace := [] }

def failRun : PSt × Except String Unit :=
  singleNodeRun demoExt failNode demoRCtx ["in/a.xml", "in/b.xml"]
    (fun i => i ++ "-key") (fun i => i ++ ".out") failWork 500 failSt0

def failSig : String := getContentSignature demoExt failNode

/-- Claim C5 counterexample: when a node's second item raises, the error
is fatal and the node is reported failed — but the cache entry written
for the first, already-completed item of the same failed run remains
stored, so the claim that no cache entry produced by the failed run is
stored is false as stated. -/
theorem nodeFailure_earlier_entry_kept :
    failRun.2 = .error "boom" ∧
    ("  - Failed: N") ∈ failRun.1.log ∧
    (getCache failRun.1.cache failSig "in/a.xml-key").isSome = true := by
  decide

lemma withCache_two_items_second_fails (E : Ext) (node : NodeCfg) (rctx : RCtx)
    (a b ka kb : String) (gk gop : String → String)
    (work : String → String → FS → FS × Except String WorkRet) (now : Int)
    (cds : List String) (e : String) (fs0 fsA fsB : FS) (wA : WorkRet)
    (log0 : List String) (outs0 : List (String × List NodeOut)) (trace0 : List String)
    (hcfg : collectFromFields rctx node.config = .ok cds)
    (hka : gk a = ka) (hkb : gk b = kb)
    (hwA : work a (gop a) fs0 = (fsA, .ok wA))
    (hwB : work b (gop b) fsA = (fsB, .error e))
    (hkeys : cacheFileName ka ≠ cacheFileName kb) :
    ∃ entryA,
      withCache E node rctx ⟨fs0, [], log0, outs0, trace0⟩ [a, b] gk gop work now =
        (⟨fsB, [((sanitizeNodeName (getContentSignature E node), cacheFileName ka), entryA)],
          log0, outs0, trace0⟩, .error e) := by
  have hbeq : ((sanitizeNodeName (getContentSignature E node), cacheFileName kb) ==
      (sanitizeNodeName (getContentSignature E node), cacheFileName ka)) = false := by
    rw [beq_eq_false_iff_ne]
    intro h
    exact hkeys (congrArg Prod.snd h).symm
  refine ⟨buildCacheEntry E.sha256hex fsA now [a] (.flatArray [gop a]) ka
    (.jlistOpt (wcDeps wA)) (some cds) none none none, ?_⟩
  unfold withCache
  rw [hcfg]
  dsimp only [List.map]
  rw [hka, hkb]
  show wcLoop E now (getContentSignature E node) cds gop work [(a, ka), (b, kb)]
    ⟨fs0, [], log0, outs0, trace0⟩ = _
  simp only [wcLoop, getCache, getCachePathParts, setCache, List.lookup, List.filter,
    hwA, hwB, hbeq]
  simp

/-- Reduce the single-node pipeline to its execution loop: with no
explicit dependencies and no inferred items edge there is no cycle, and
the execution order is the single node. -/
lemma pipelineRun_single (node : NodeCfg)
    (runFn : NodeCfg → PSt → PSt × Except String (List NodeOut)) (st0 : PSt)
    (hdeps : node.explicitDependencies = none)
    (hitems : autoEdgeOf node = none) :
    pipelineRun [node] runFn st0 = pipelineLoop runFn [node] [node.name] st0 := by
  unfold pipelineRun
  have h1 : overallOrder ([node].map (fun n => n.name)) [] = .ok [node.name] := by
    rw [overallOrder_no_edges]
    rfl
  have h2 : buildExplicitEdges ([node].map (fun n => n.name)) [node] = .ok [] := by
    simp only [buildExplicitEdges, hdeps]
    rfl
  have h3 : buildAutoEdges ([node].map (fun n => n.name)) [node] = .ok [] := by
    simp only [buildAutoEdges, hitems]
  rw [show ([node].map (fun n => n.name)) = [node.name] from rfl] at h1 h2 h3
  show (match overallOrder [node.name] [] with
    | .error e => (st0, Except.error e)
    | .ok _ord0 =>
      match buildExplicitEdges [node.name] [node] with
      | .error e => (st0, Except.error e)
      | .ok exEdges =>
        match overallOrder [node.name] exEdges with
        | .error e => (st0, Except.error e)
        | .ok _ord1 =>
          match buildAutoEdges [node.name] [node] with
          | .error e => (st0, Except.error e)
          | .ok autoEdges =>
            match overallOrder [node.name] (exEdges ++ autoEdges) with
            | .error e => (st0, Except.error e)
            | .ok ord2 => pipelineLoop runFn [node] ord2 st0) = _
  rw [h1, h2, h3]
  show (match overallOrder [node.name] [] with
    | .error e => (st0, Except.error e)
    | .ok _ord1 =>
      match overallOrder [node.name] ([] ++ []) with
      | .error e => (st0, Except.error e)
      | .ok ord2 => pipelineLoop runFn [node] ord2 st0) =
    pipelineLoop runFn [node] [node.name] st0
  rw [show ([] ++ [] : List (String × String)) = [] from rfl]
  rw [overallOrder_no_edges]

/-- Claim C5 as amended: if a node's work raises an error on an item,
the error is fatal (Pipeline.run rethrows it), the node is reported as
failed by name with the error message, no cache entry is stored for the
failing item, and the node's outputs are not recorded — but cache
entries written for items of the same run that completed before the
failure remain stored. -/
theorem nodeFailure_fatal_and_reported (E : Ext) (node : NodeCfg) (rctx : RCtx)
    (a b ka kb : String) (gk gop : String → String)
    (work : String → String → FS → FS × Except String WorkRet) (now : Int)
    (cds : List String) (e : String) (fs0 fsA fsB : FS) (wA : WorkRet)
    (log0 : List String) (outs0 : List (String × List NodeOut)) (trace0 : List String)
    (hdeps : node.explicitDependencies = none)
    (hitems : autoEdgeOf node = none)
    (hcfg : collectFromFields rctx node.config = .ok cds)
    (hka : gk a = ka) (hkb : gk b = kb)
    (hwA : work a (gop a) fs0 = (fsA, .ok wA))
    (hwB : work b (gop b) fsA = (fsB, .error e))
    (hkeys : cacheFileName ka ≠ cacheFileName kb)
    (hout0 : outs0.lookup node.name = none) :
    (singleNodeRun E node rctx [a, b] gk gop work now ⟨fs0, [], log0, outs0, trace0⟩).2 =
      .error e ∧
    ("  - Failed: " ++ node.name) ∈
      (singleNodeRun E node rctx [a, b] gk gop work now ⟨fs0, [], log0, outs0, trace0⟩).1.log ∧
    ("    " ++ e) ∈
      (singleNodeRun E node rctx [a, b] gk gop work now ⟨fs0, [], log0, outs0, trace0⟩).1.log ∧
    (getCache (singleNodeRun E node rctx [a, b] gk gop work now
        ⟨fs0, [], log0, outs0, trace0⟩).1.cache (getContentSignature E node) ka).isSome = true ∧
    getCache (singleNodeRun E node rctx [a, b] gk gop work now
        ⟨fs0, [], log0, outs0, trace0⟩).1.cache (getContentSignature E node) kb = none ∧
    (singleNodeRun E node rctx [a, b] gk gop work now
        ⟨fs0, [], log0, outs0, trace0⟩).1.nodeOutputs.lookup node.name = none := by
  have hbeq : ((sanitizeNodeName (getContentSignature E node), cacheFileName kb) ==
      (sanitizeNodeName (getContentSignature E node), cacheFileName ka)) = false := by
    rw [beq_eq_false_iff_ne]
    intro h
    exact hkeys (congrArg Prod.snd h).symm
  obtain ⟨entryA, hwc⟩ := withCache_two_items_second_fails E node rctx a b ka kb gk gop
    work now cds e fs0 fsA fsB wA (log0 ++ ["▶ Running node: " ++ node.name]) outs0
    (trace0 ++ [node.name]) hcfg hka hkb hwA hwB hkeys
  have hloop : singleNodeRun E node rctx [a, b] gk gop work now ⟨fs0, [], log0, outs0, trace0⟩ =
      (⟨fsB, [((sanitizeNodeName (getContentSignature E node), cacheFileName ka), entryA)],
        (log0 ++ ["▶ Running node: " ++ node.name]) ++ ["  - Failed: " ++ node.name, "    " ++ e],
        outs0, trace0 ++ [node.name]⟩, .error e) := by
    unfold singleNodeRun
    rw [pipelineRun_single node _ _ hdeps hitems]
    simp only [pipelineLoop]
    have hfind : [node].find? (fun m => m.name == node.name) = some node := by
      simp [List.find?]
    rw [hfind]
    dsimp only
    rw [hwc]
  rw [hloop]
  refine ⟨rfl, ?_, ?_, ?_, ?_, ?_⟩
  · apply List.mem_append.mpr
    exact Or.inr (List.mem_cons_self _ _)
  · apply List.mem_append.mpr
    exact Or.inr (List.mem_cons_of_mem _ (List.mem_cons_self _ _))
  · unfold getCache getCachePathParts
    simp [List.lookup]
  · unfold getCache getCachePathParts
    simp only [List.lookup, hbeq]
  · exact hout0

/-- Witness for the amended C5 theorem: the concrete failing pipeline. -/
theorem nodeFailure_fatal_and_reported_witness :
    (singleNodeRun demoExt failNode demoRCtx ["in/a.xml", "in/b.xml"]
      (fun i => i ++ "-key") (fun i => i ++ ".out") failWork 500
      ⟨failFS, [], [], [], []⟩).2 = .error "boom" ∧
    ("  - Failed: " ++ failNode.name) ∈
      (singleNodeRun demoExt failNode demoRCtx ["in/a.xml", "in/b.xml"]
        (fun i => i ++ "-key") (fun i => i ++ ".out") failWork 500
        ⟨failFS, [], [], [], []⟩).1.log ∧
    ("    " ++ "boom") ∈
      (singleNodeRun demoExt failNode demoRCtx ["in/a.xml", "in/b.xml"]
        (fun i => i ++ "-key") (fun i => i ++ ".out") failWork 500
        ⟨failFS, [], [], [], []⟩).1.log ∧
    (getCache (singleNodeRun demoExt failNode demoRCtx ["in/a.xml", "in/b.xml"]
        (fun i => i ++ "-key") (fun i => i ++ ".out") failWork 500
        ⟨failFS, [], [], [], []⟩).1.cache (getContentSignature demoExt failNode)
        "in/a.xml-key").isSome = true ∧
    getCache (singleNodeRun demoExt failNode demoRCtx ["in/a.xml", "in/b.xml"]
        (fun i => i ++ "-key") (fun i => i ++ ".out") failWork 500
        ⟨failFS, [], [], [], []⟩).1.cache (getContentSignature demoExt failNode)
        "in/b.xml-key" = none ∧
    (singleNodeRun demoExt failNode demoRCtx ["in/a.xml", "in/b.xml"]
        (fun i => i ++ "-key") (fun i => i ++ ".out") failWork 500
        ⟨failFS, [], [], [], []⟩).1.nodeOutputs.lookup failNode.name = none := by
  apply nodeFailure_fatal_and_reported demoExt failNode demoRCtx
    "in/a.xml" "in/b.xml" "in/a.xml-key" "in/b.xml-key"
    (fun i => i ++ "-key") (fun i => i ++ ".out") failWork 500
    ["styles.xsl"] "boom" failFS (fsWrite failFS "in/a.xml.out" ⟨"OUT", 200⟩)
    (fsWrite failFS "in/a.xml.out" ⟨"OUT", 200⟩) .plain [] [] []
  · rfl
  · rfl
  · rfl
  · rfl
  · rfl
  · decide
  · decide
  · decide
  · rfl

end EfesNG
